import Mathlib

/-!
Verification of the UTS Event Aggregator System (Python) against its
natural-language specification.

Shallow embedding of:
  * `src/dedup_store.py` — `DedupStore` backed by a SQLite table
    `processed_events(topic, event_id, timestamp, processed_at)` with
    `PRIMARY KEY (topic, event_id)`.  The table is modelled as a list of
    rows in insertion order; the primary-key uniqueness constraint is the
    `hasKey` check (an `INSERT` of an existing key raises
    `sqlite3.IntegrityError`, which `mark_processed` catches and turns
    into `False`).  `ORDER BY processed_at DESC` is modelled by sorting
    with the "later or equal `processed_at` first" relation.
  * `src/aggregator.py` — `EventAggregator` with its queue, counters and
    worker pool, modelled as explicit state passing plus a trace
    semantics (`Action` / `run`) that interleaves publishes, single
    worker processing steps and graceful restarts.
-/

/-- Modelled from the spec: `src/models.py` (the `Event` pydantic model) is
not under `src/`; the spec describes an Event as topic, event_id, timestamp
(ISO-8601 text), source and an opaque payload.  Only `topic`, `event_id`
and `timestamp` are read by the core; `payload` is kept opaque as text. -/
structure Event where
  topic : String
  event_id : String
  timestamp : String
  source : String
  payload : String
  deriving DecidableEq, Repr

/-- Row of the `processed_events` table (`dedup_store.py`, `_init_db`):
columns `topic`, `event_id`, `timestamp`, `processed_at`, all TEXT. -/
structure ProcessedRecord where
  topic : String
  event_id : String
  timestamp : String
  processed_at : String
  deriving DecidableEq, Repr

/-- The persistent table contents, in insertion order. -/
abbrev Store := List ProcessedRecord

/-- The `(topic, event_id)` deduplication key of an event. -/
def Event.key (e : Event) : String × String := (e.topic, e.event_id)

/-- The `(topic, event_id)` key of a persisted row. -/
def ProcessedRecord.key (r : ProcessedRecord) : String × String := (r.topic, r.event_id)

/-- SQL `SELECT 1 FROM processed_events WHERE topic = ? AND event_id = ?`
returns a row iff the table holds a row with that primary key. -/
def hasKey (s : Store) (topic event_id : String) : Bool :=
  s.any fun r => r.topic == topic && r.event_id == event_id

/-- Model of `DedupStore.is_duplicate(topic, event_id)` (`dedup_store.py` lines
34-42): the fast-path existence check. -/
def is_duplicate (s : Store) (topic event_id : String) : Bool :=
  hasKey s topic event_id

/-- Model of `DedupStore.mark_processed(topic, event_id, timestamp)`
(`dedup_store.py` lines 44-58): attempts the INSERT; the primary-key
violation (`sqlite3.IntegrityError`) is caught and returned as `False`,
otherwise the row is inserted with `processed_at = now` and the call
returns `True`.  `now` is the `datetime.now(timezone.utc).isoformat()`
text passed explicitly here. -/
def mark_processed (s : Store) (topic event_id timestamp now : String) :
    Bool × Store :=
  if hasKey s topic event_id then (false, s)
  else (true, s ++ [⟨topic, event_id, timestamp, now⟩])

/-- Ordering used by `ORDER BY processed_at DESC`: row `a` comes no later
than row `b` in the output iff `a.processed_at ≥ b.processed_at`.  SQLite
compares TEXT columns by memcmp over their UTF-8 bytes, which for valid
UTF-8 is the lexicographic order on the character sequences, i.e. the
lexicographic order on `String.data`. -/
def procDesc (a b : ProcessedRecord) : Prop :=
  b.processed_at.data ≤ a.processed_at.data

instance : DecidableRel procDesc := fun a b =>
  inferInstanceAs (Decidable (b.processed_at.data ≤ a.processed_at.data))

instance : IsTotal ProcessedRecord procDesc :=
  ⟨fun a b => le_total b.processed_at.data a.processed_at.data⟩

instance : IsTrans ProcessedRecord procDesc :=
  ⟨fun _ _ _ h₁ h₂ => le_trans h₂ h₁⟩

/-- Model of `DedupStore.get_processed_events(topic=None)` (`dedup_store.py` lines
60-77).  The Python guard is `if topic:` — true only when `topic` is
neither `None` nor the empty string — selecting the `WHERE topic = ?`
query; otherwise all rows are returned.  Both queries order by
`processed_at` descending. -/
def get_processed_events (s : Store) (topic : Option String) :
    List ProcessedRecord :=
  match topic with
  | some t =>
      if t = "" then List.insertionSort procDesc s
      else List.insertionSort procDesc (s.filter fun r => r.topic == t)
  | none => List.insertionSort procDesc s

/-- Model of `EventAggregator.get_events(topic=None)` (`aggregator.py` lines
115-126): a pass-through to `get_processed_events`; the reshaping of each
tuple into a field-named dict is the identity on the record's fields. -/
def get_events (s : Store) (topic : Option String) : List ProcessedRecord :=
  get_processed_events s topic

/-- Count of rows in the store with a given key. -/
def countKey (s : Store) (k : String × String) : Nat :=
  (s.filter fun r => r.key == k).length

/-- State of an `EventAggregator` (`aggregator.py` lines 16-26) together
with the shared `DedupStore`: the counters of `self.stats`, the asyncio
`Queue` contents (front first), and the persistent store.  `marks` is a
ghost log recording, in order, the keys for which `mark_processed`
returned `True`; `unique_processed` is incremented exactly when a key is
appended to `marks`, and `marks` is never reset, so it counts the
`unique_processed` increments accumulated across process restarts. -/
structure AggState where
  store : Store
  queue : List Event
  received : Nat
  unique_processed : Nat
  duplicate_dropped : Nat
  marks : List (String × String)
  deriving Repr

/-- Freshly constructed aggregator over an empty store. -/
def initState : AggState := ⟨[], [], 0, 0, 0, []⟩

/-- Model of `EventAggregator._process_event(event)` (`aggregator.py` lines
85-100): calls `mark_processed`; on `True` increments `unique_processed`
(and logs the key in the ghost `marks`), on `False` increments
`duplicate_dropped`.  `now` is the wall-clock text used for
`processed_at`. -/
def processEvent (s : AggState) (e : Event) (now : String) : AggState :=
  let r := mark_processed s.store e.topic e.event_id e.timestamp now
  if r.1 then
    { s with store := r.2, unique_processed := s.unique_processed + 1,
             marks := s.marks ++ [e.key] }
  else
    { s with store := r.2, duplicate_dropped := s.duplicate_dropped + 1 }

/-- One iteration of a worker's consume loop (`aggregator.py` lines
69-83) in which an event is available: pop the queue head and process it.
With an empty queue the `asyncio.wait_for` times out and the loop
continues, leaving the state unchanged. -/
def stepState (s : AggState) (now : String) : AggState :=
  match s.queue with
  | [] => s
  | e :: rest => processEvent { s with queue := rest } e now

/-- Workers draining a list of pending events one at a time, in order. -/
def processAll (s : AggState) (es : List Event) (now : String) : AggState :=
  es.foldl (fun st e => processEvent st e now) s

/-- The per-event body of `EventAggregator.publish` (`aggregator.py`
lines 46-67): increment `received`; if the fast-path `is_duplicate` check
fires, count the event as dropped and skip queueing, otherwise append it
to the queue. -/
def pubEvent (s : AggState) (e : Event) : AggState :=
  let s1 := { s with received := s.received + 1 }
  if is_duplicate s1.store e.topic e.event_id then
    { s1 with duplicate_dropped := s1.duplicate_dropped + 1 }
  else
    { s1 with queue := s1.queue ++ [e] }

/-- Return value of `publish`. -/
structure PublishResult where
  accepted : Nat
  rejected : Nat
  duplicates_immediate : Nat
  deriving DecidableEq, Repr

/-- Per-event step of `publish`, threading the result dict alongside the
aggregator state exactly as the Python loop body does. -/
def publishStep (acc : PublishResult × AggState) (e : Event) :
    PublishResult × AggState :=
  let s1 := { acc.2 with received := acc.2.received + 1 }
  if is_duplicate s1.store e.topic e.event_id then
    ({ acc.1 with duplicates_immediate := acc.1.duplicates_immediate + 1,
                  rejected := acc.1.rejected + 1 },
     { s1 with duplicate_dropped := s1.duplicate_dropped + 1 })
  else
    ({ acc.1 with accepted := acc.1.accepted + 1 },
     { s1 with queue := s1.queue ++ [e] })

/-- Model of `EventAggregator.publish(events)` (`aggregator.py` lines 46-67): the
loop over the given events, returning the result dict and the state after
all enqueueing; no queued event is processed by this call. -/
def publish (s : AggState) (events : List Event) : PublishResult × AggState :=
  events.foldl publishStep (⟨0, 0, 0⟩, s)

/-- Graceful restart: `stop()` keeps the workers running while the queue
is non-empty (`while self.running or not self.queue.empty()`), so the
queue drains before the process exits; a fresh `EventAggregator` is then
constructed over the reopened store, resetting the in-memory counters to
zero while the store (and the ghost `marks` history) persists. -/
def restartState (s : AggState) (now : String) : AggState :=
  let d := processAll { s with queue := [] } s.queue now
  { d with received := 0, unique_processed := 0, duplicate_dropped := 0 }

/-- One atomic action of the system's interleaving semantics: a publish
of a single event, a worker processing step (with the wall-clock text it
would write as `processed_at`), or a graceful restart. -/
inductive SysAction where
  | pub (e : Event)
  | step (now : String)
  | restart (now : String)
  deriving DecidableEq, Repr

/-- Small-step interpretation of one action. -/
def runA (s : AggState) (a : SysAction) : AggState :=
  match a with
  | .pub e => pubEvent s e
  | .step now => stepState s now
  | .restart now => restartState s now

/-- Run a trace of actions from a state. -/
def run (s : AggState) (tr : List SysAction) : AggState :=
  tr.foldl runA s

/-- Number of publishes of events with key `k` in a trace. -/
def pubCount (tr : List SysAction) (k : String × String) : Nat :=
  (tr.filter fun a => match a with | .pub e => e.key == k | _ => false).length

/-- Number of queued events with key `k`. -/
def queueCount (q : List Event) (k : String × String) : Nat :=
  (q.filter fun e => e.key == k).length

/-- Number of logged successful `mark_processed` calls for key `k`. -/
def marksCount (m : List (String × String)) (k : String × String) : Nat :=
  (m.filter fun k2 => k2 == k).length

/-- Lifecycle state of the aggregator (`aggregator.py` lines 16-44):
the `self.running` flag and the `self.consumer_tasks` list (modelled by
the worker ids passed to `_consume_events`). -/
structure LifeState where
  running : Bool
  consumer_tasks : List Nat
  deriving DecidableEq, Repr

/-- Lifecycle fields set by `__init__`: not running, no worker tasks. -/
def initLife : LifeState := ⟨false, []⟩

/-- Model of `EventAggregator.start()` (`aggregator.py` lines 28-37): only when
not already running, set `running` and spawn one consumer task per
`i in range(5)`. -/
def startAgg (s : LifeState) : LifeState :=
  if !s.running then { running := true, consumer_tasks := List.range 5 }
  else s

/-- Model of `EventAggregator.stop()` (`aggregator.py` lines 39-44): clear the
`running` flag; when `consumer_tasks` is non-empty, await them (they
drain and exit), otherwise there is nothing to await and the call
returns at once.  Either way the call completes normally. -/
def stopAgg (s : LifeState) : LifeState :=
  { s with running := false }

/-- Clock model for `get_stats().uptime`: `__init__` stores
`time.time()` into `self.stats["start_time"]` (`aggregator.py` line 24).
Clock readings are modelled as rationals. -/
structure UptimeAgg where
  start_time : ℚ
  deriving DecidableEq, Repr

/-- Model of `EventAggregator.__init__` at clock reading `now`:
`stats["start_time"] = time.time()`. -/
def uptimeInit (now : ℚ) : UptimeAgg := ⟨now⟩

/-- Fact of the source: `EventAggregator.start()` does not read the clock and does not touch
`stats["start_time"]` (`aggregator.py` lines 28-37). -/
def uptimeStart (m : UptimeAgg) : UptimeAgg := m

/-- The `uptime` field computed by `get_stats` (`aggregator.py` line
105): `time.time() - self.stats["start_time"]` at clock reading `now`. -/
def statsUptime (m : UptimeAgg) (now : ℚ) : ℚ := now - m.start_time

/-- Repeated `mark_processed` calls on one key against the same store,
one call per clock reading in `nows`: returns the list of boolean
results in call order together with the final store. -/
def markRuns (s : Store) (topic event_id ts : String) :
    List String → List Bool × Store
  | [] => ([], s)
  | now :: rest =>
    let r := mark_processed s topic event_id ts now
    let tail := markRuns r.2 topic event_id ts rest
    (r.1 :: tail.1, tail.2)
/-- Conservation invariant: every received event is accounted for as
uniquely processed, dropped as duplicate, or still sitting in the
queue. -/
def conserved (s : AggState) : Prop :=
  s.received = s.unique_processed + s.duplicate_dropped + s.queue.length
/-- Errors the persistence layer can signal during an INSERT
(`sqlite3` exceptions): the uniqueness-constraint violation
(`sqlite3.IntegrityError`) or any other persistence failure
(I/O failure, corruption). -/
inductive StoreError where
  | integrityViolation
  | persistenceFailure
  deriving DecidableEq, Repr

/-- The raw SQL `INSERT` of `mark_processed`: when the environment
injects a fault the INSERT raises a non-integrity persistence error;
otherwise it raises `IntegrityError` exactly when the primary key
already exists, and inserts the row when it does not. -/
def insertRow (s : Store) (row : ProcessedRecord) (fault : Bool) :
    Except StoreError Store :=
  if fault then .error .persistenceFailure
  else if hasKey s row.topic row.event_id then .error .integrityViolation
  else .ok (s ++ [row])

/-- Model of `DedupStore.mark_processed` with its `try/except sqlite3.IntegrityError`
(`dedup_store.py` lines 44-58): the integrity violation is caught and
becomes the `False` return value; every other persistence error
propagates to the caller. -/
def markProcessedExc (s : Store) (topic event_id ts now : String)
    (fault : Bool) : Except StoreError (Bool × Store) :=
  match insertRow s ⟨topic, event_id, ts, now⟩ fault with
  | .ok s2 => .ok (true, s2)
  | .error .integrityViolation => .ok (false, s)
  | .error e => .error e

/-- Model of `EventAggregator._process_event` when the store call may raise:
exceptions from `mark_processed` propagate out of the method. -/
def processEventExc (s : AggState) (e : Event) (now : String)
    (fault : Bool) : Except StoreError AggState :=
  match markProcessedExc s.store e.topic e.event_id e.timestamp now fault with
  | .ok r =>
      .ok (if r.1 then
        { s with store := r.2, unique_processed := s.unique_processed + 1,
                 marks := s.marks ++ [e.key] }
      else
        { s with store := r.2, duplicate_dropped := s.duplicate_dropped + 1 })
  | .error err => .error err

/-- The worker's consume loop over a list of pending events
(`aggregator.py` lines 69-83): `except Exception` catches any failure
of one event's processing, logs it, and the loop continues with the
next item; `faults` tells which events' store calls fail. -/
def consumeLoop (faults : Event → Bool) (now : String) :
    List Event → AggState → AggState
  | [], s => s
  | e :: rest, s =>
    match processEventExc s e now (faults e) with
    | .ok s2 => consumeLoop faults now rest s2
    | .error _ => consumeLoop faults now rest s
section Sanity

example : (mark_processed [] "t" "e1" "ts" "now").1 = true := by decide

example :
    (mark_processed [⟨"t", "e1", "ts", "n0"⟩] "t" "e1" "ts2" "n1").1 = false := by
  decide

example :
    get_processed_events [⟨"a", "1", "t", "p1"⟩, ⟨"b", "2", "t", "p3"⟩] none
      = [⟨"b", "2", "t", "p3"⟩, ⟨"a", "1", "t", "p1"⟩] := by decide

end Sanity

/-! ### Characterization of `publish` -/

/-- Behaviour of `publishStep` on an event the fast path flags as duplicate. -/
theorem publishStep_dup {res : PublishResult} {s : AggState} {e : Event}
    (h : is_duplicate s.store e.topic e.event_id = true) :
    publishStep (res, s) e =
      ({ res with rejected := res.rejected + 1,
                  duplicates_immediate := res.duplicates_immediate + 1 },
       { s with received := s.received + 1,
                duplicate_dropped := s.duplicate_dropped + 1 }) := by
  simp [publishStep, h]

/-- Behaviour of `publishStep` on an event the fast path accepts. -/
theorem publishStep_new {res : PublishResult} {s : AggState} {e : Event}
    (h : is_duplicate s.store e.topic e.event_id = false) :
    publishStep (res, s) e =
      ({ res with accepted := res.accepted + 1 },
       { s with received := s.received + 1, queue := s.queue ++ [e] }) := by
  simp [publishStep, h]

/-- Full characterization of the `publish` loop: the store is never
written, so every fast-path check during one call reads the store as it
was on entry; accepted events are appended to the queue in input order;
the counters advance by the respective filter lengths. -/
theorem publish_foldl (es : List Event) :
    ∀ (res : PublishResult) (s : AggState),
      es.foldl publishStep (res, s) =
      ({ accepted := res.accepted +
            (es.filter fun e => !is_duplicate s.store e.topic e.event_id).length,
         rejected := res.rejected +
            (es.filter fun e => is_duplicate s.store e.topic e.event_id).length,
         duplicates_immediate := res.duplicates_immediate +
            (es.filter fun e => is_duplicate s.store e.topic e.event_id).length },
       { s with received := s.received + es.length,
                duplicate_dropped := s.duplicate_dropped +
                  (es.filter fun e => is_duplicate s.store e.topic e.event_id).length,
                queue := s.queue ++
                  (es.filter fun e => !is_duplicate s.store e.topic e.event_id) }) := by
  induction es with
  | nil => intro res s; simp
  | cons e es ih =>
    intro res s
    cases h : is_duplicate s.store e.topic e.event_id with
    | true =>
      rw [List.foldl_cons, publishStep_dup h, ih]
      simp only [List.filter_cons, h, Bool.not_true, Bool.false_eq_true, if_false, if_pos,
        List.length_cons, List.length, Prod.mk.injEq, PublishResult.mk.injEq, AggState.mk.injEq]
      refine ⟨⟨?_, ?_, ?_⟩, ?_, ?_, ?_, ?_, ?_, ?_⟩ <;> first | trivial | omega
    | false =>
      rw [List.foldl_cons, publishStep_new h, ih]
      simp only [List.filter_cons, h, Bool.not_false, Bool.true_eq_false, if_true, if_false,
        List.length_cons, Prod.mk.injEq, PublishResult.mk.injEq, AggState.mk.injEq,
        List.append_assoc, List.singleton_append]
      refine ⟨⟨?_, ?_, ?_⟩, ?_, ?_, ?_, ?_, ?_, ?_⟩ <;> first | trivial | omega

/-! ### Claim theorems: publish behaviour, lifecycle, uptime -/

/-- C5: `publish` handles each event in the order given: it increments
`received` once per event; an event whose key the fast-path
`is_duplicate` check (against the store as it is on entry — the call
never writes the store) reports as duplicate is counted in
`duplicates_immediate`, `rejected` and `duplicate_dropped` and is not
enqueued; every other event is appended to the queue, preserving the
input order, and counted in `accepted`; the call returns after
enqueueing without processing anything (store, `unique_processed` and
the ghost `marks` log are untouched). -/
theorem publish_behavior (s : AggState) (events : List Event) :
    (publish s events).1.accepted =
      (events.filter fun e => !is_duplicate s.store e.topic e.event_id).length ∧
    (publish s events).1.rejected =
      (events.filter fun e => is_duplicate s.store e.topic e.event_id).length ∧
    (publish s events).1.duplicates_immediate =
      (events.filter fun e => is_duplicate s.store e.topic e.event_id).length ∧
    (publish s events).2.queue =
      s.queue ++ (events.filter fun e => !is_duplicate s.store e.topic e.event_id) ∧
    (publish s events).2.received = s.received + events.length ∧
    (publish s events).2.duplicate_dropped =
      s.duplicate_dropped +
        (events.filter fun e => is_duplicate s.store e.topic e.event_id).length ∧
    (publish s events).2.store = s.store ∧
    (publish s events).2.unique_processed = s.unique_processed ∧
    (publish s events).2.marks = s.marks := by
  unfold publish
  rw [publish_foldl]
  simp

/-- C10: a single `publish` call returns `rejected = duplicates_immediate`
and `accepted + rejected = events.length`, increases `received` by
exactly `events.length`, and `publish s []` returns all-zero counters
with the state unchanged. -/
theorem publish_result_counts (s : AggState) (events : List Event) :
    (publish s events).1.rejected = (publish s events).1.duplicates_immediate ∧
    (publish s events).1.accepted + (publish s events).1.rejected = events.length ∧
    (publish s events).2.received = s.received + events.length ∧
    publish s [] = (⟨0, 0, 0⟩, s) := by
  unfold publish
  rw [publish_foldl, publish_foldl]
  refine ⟨by simp, ?_, by simp, by simp⟩
  simp only [Nat.zero_add]
  rw [Nat.add_comm]
  exact (List.length_eq_length_filter_add
    (fun e : Event => is_duplicate s.store e.topic e.event_id)).symm

/-- C9: because the Python guard `if topic:` is false for the empty
string, querying with `topic = ""` takes the unfiltered branch and
returns all records of every topic, exactly as the call with no topic
filter does — not the (empty) list of records whose topic is `""`. -/
theorem get_events_empty_topic (s : Store) :
    get_processed_events s (some "") = get_processed_events s none ∧
    get_events s (some "") = get_events s none :=
  ⟨by simp [get_processed_events], by simp [get_events, get_processed_events]⟩

/-- C8: `start()` is idempotent — on an already-running aggregator it is
a no-op (same state, no new worker tasks), and a first call on the fresh
state spawns exactly 5 worker tasks; `stop()` on a never-started
aggregator completes trivially (it just clears the already-false
`running` flag). -/
theorem start_stop_lifecycle :
    (∀ s : LifeState, s.running = true → startAgg s = s) ∧
    (∀ s : LifeState, startAgg (startAgg s) = startAgg s) ∧
    (startAgg initLife).running = true ∧
    (startAgg initLife).consumer_tasks.length = 5 ∧
    stopAgg initLife = initLife := by
  refine ⟨?_, ?_, rfl, rfl, rfl⟩
  · intro s h
    simp [startAgg, h]
  · intro s
    by_cases h : s.running = true
    · simp [startAgg, h]
    · simp only [Bool.not_eq_true] at h
      simp [startAgg, h]

/-- C7 counterexample: the code computes `uptime` from the
`start_time` recorded by `__init__`, which `start()` never updates.
Constructing the aggregator at clock 0, calling `start()` at clock 5 and
reading `get_stats()` at clock 6 — i.e. sleeping 1.0 s after `start()` —
yields `uptime = 6`, not a value in `[1.0, 2.0)` as the claim requires. -/
theorem uptime_not_since_start :
    statsUptime (uptimeStart (uptimeInit 0)) 6 = 6 ∧
    ¬(1 ≤ statsUptime (uptimeStart (uptimeInit 0)) 6 ∧
      statsUptime (uptimeStart (uptimeInit 0)) 6 < 2) := by
  constructor
  · norm_num [statsUptime, uptimeStart, uptimeInit]
  · norm_num [statsUptime, uptimeStart, uptimeInit]

/-- C7 amended: `get_stats().uptime` is non-decreasing across successive
calls (for non-decreasing clock readings) and equals the elapsed
wall-clock time since the aggregator's construction (`__init__`); it
approximates the time since `start()` only when `start()` is called at
the instant of construction, in which case reading it 1.0 s later yields
exactly 1.0 ∈ [1.0, 2.0). -/
theorem uptime_monotone_since_init (t0 c1 c2 : ℚ) (h : c1 ≤ c2) :
    statsUptime (uptimeStart (uptimeInit t0)) c1 ≤
      statsUptime (uptimeStart (uptimeInit t0)) c2 ∧
    statsUptime (uptimeStart (uptimeInit t0)) c1 = c1 - t0 ∧
    (1 ≤ statsUptime (uptimeStart (uptimeInit t0)) (t0 + 1) ∧
      statsUptime (uptimeStart (uptimeInit t0)) (t0 + 1) < 2) := by
  refine ⟨?_, rfl, ?_, ?_⟩ <;> simp [statsUptime, uptimeStart, uptimeInit, h]

/-- C7 amended, witness: instantiation at `t0 = 0`, `c1 = 1`, `c2 = 2`. -/
theorem uptime_monotone_since_init_witness :
    statsUptime (uptimeStart (uptimeInit 0)) 1 ≤
      statsUptime (uptimeStart (uptimeInit 0)) 2 ∧
    statsUptime (uptimeStart (uptimeInit 0)) 1 = 1 - 0 ∧
    (1 ≤ statsUptime (uptimeStart (uptimeInit 0)) (0 + 1) ∧
      statsUptime (uptimeStart (uptimeInit 0)) (0 + 1) < 2) :=
  uptime_monotone_since_init 0 1 2 (by norm_num)

/-- C8 witness: `start()` on the concrete running state `⟨true, [0]⟩`
returns it unchanged, via the first conjunct of the lifecycle theorem. -/
theorem start_stop_lifecycle_witness :
    startAgg ⟨true, [0]⟩ = (⟨true, [0]⟩ : LifeState) :=
  start_stop_lifecycle.1 ⟨true, [0]⟩ rfl

/-! ### Claim C2: mark_processed semantics -/



/-- After any `mark_processed` call the key exists in the store. -/
theorem hasKey_after_mark (s : Store) (topic event_id ts now : String) :
    hasKey (mark_processed s topic event_id ts now).2 topic event_id = true := by
  unfold mark_processed
  cases h : hasKey s topic event_id with
  | true => simpa using h
  | false => simp [hasKey, List.any_append]

/-- Once the key exists, every further call returns `false` and leaves
the store unchanged. -/
theorem markRuns_after_dup (topic event_id ts : String) :
    ∀ (nows : List String) (s : Store), hasKey s topic event_id = true →
      markRuns s topic event_id ts nows = (nows.map fun _ => false, s) := by
  intro nows
  induction nows with
  | nil => intro s _; simp [markRuns]
  | cons now rest ih =>
    intro s h
    simp only [markRuns, mark_processed, h, if_pos, List.map_cons]
    rw [ih s h]

/-- C2: `mark_processed` returns `true` iff no record with the key
existed before the call, in which case it appends the new record;
when the key already exists it returns `false` with the store unchanged
(the uniqueness violation is a boolean outcome, never an exception —
the function is total); and across any non-empty sequence of calls on
one key, starting from a store not containing it, exactly one call
(the first) returns `true`. -/
theorem mark_processed_spec (s : Store) (topic event_id ts now : String)
    (nows : List String) (hfresh : hasKey s topic event_id = false)
    (hne : nows ≠ []) :
    ((mark_processed s topic event_id ts now).1 = true ↔
      hasKey s topic event_id = false) ∧
    (hasKey s topic event_id = true →
      mark_processed s topic event_id ts now = (false, s)) ∧
    (hasKey s topic event_id = false →
      mark_processed s topic event_id ts now =
        (true, s ++ [⟨topic, event_id, ts, now⟩])) ∧
    (markRuns s topic event_id ts nows).1.count true = 1 := by
  refine ⟨?_, ?_, ?_, ?_⟩
  · unfold mark_processed
    cases h : hasKey s topic event_id <;> simp [h]
  · intro h; simp [mark_processed, h]
  · intro h; simp [mark_processed, h]
  · cases nows with
    | nil => exact absurd rfl hne
    | cons n0 rest =>
      simp only [markRuns, mark_processed, hfresh, Bool.false_eq_true, if_false]
      rw [markRuns_after_dup topic event_id ts rest _
        (by simp [hasKey, List.any_append])]
      simp [List.count_cons, List.count_replicate]

/-- C2 witness: the specification of `mark_processed` instantiated on an
empty store, key `("t", "e")` and two repeated calls. -/
theorem mark_processed_spec_witness :
    ((mark_processed [] "t" "e" "x" "n").1 = true ↔
      hasKey [] "t" "e" = false) ∧
    (hasKey [] "t" "e" = true →
      mark_processed [] "t" "e" "x" "n" = (false, [])) ∧
    (hasKey [] "t" "e" = false →
      mark_processed [] "t" "e" "x" "n" =
        (true, [] ++ [⟨"t", "e", "x", "n"⟩])) ∧
    (markRuns [] "t" "e" "x" ["n1", "n2"]).1.count true = 1 :=
  mark_processed_spec [] "t" "e" "x" "n" ["n1", "n2"] (by decide) (by decide)

/-! ### Claim C3: conservation of counters -/



/-- Counter bookkeeping: `processEvent` moves one in-flight event into exactly one of the two
outcome counters and never touches the queue. -/
theorem processEvent_counters (s : AggState) (e : Event) (now : String) :
    (processEvent s e now).queue = s.queue ∧
    (processEvent s e now).received = s.received ∧
    (processEvent s e now).unique_processed + (processEvent s e now).duplicate_dropped =
      s.unique_processed + s.duplicate_dropped + 1 := by
  unfold processEvent mark_processed
  cases h : hasKey s.store e.topic e.event_id <;> simp [h] <;> omega

/-- Draining does not touch the queue field: `processAll` leaves it as is. -/
theorem processAll_queue (es : List Event) :
    ∀ (s : AggState) (now : String), (processAll s es now).queue = s.queue := by
  induction es with
  | nil => intro s now; rfl
  | cons e rest ih =>
    intro s now
    unfold processAll
    rw [List.foldl_cons]
    have := ih (processEvent s e now) now
    unfold processAll at this
    rw [this, (processEvent_counters s e now).1]

/-- Each action preserves the conservation invariant. -/
theorem conserved_runA (s : AggState) (a : SysAction) (h : conserved s) :
    conserved (runA s a) := by
  cases a with
  | pub e =>
    unfold conserved at h ⊢
    unfold runA pubEvent
    cases hd : is_duplicate s.store e.topic e.event_id <;> simp [hd] <;> omega
  | step now =>
    unfold conserved at h ⊢
    unfold runA stepState
    cases hq : s.queue with
    | nil => exact h
    | cons e rest =>
      have hc := processEvent_counters { s with queue := rest } e now
      have h3 := hc.2.2
      rw [hc.1, hc.2.1]
      simp only at h3 ⊢
      rw [hq] at h
      simp at h
      omega
  | restart now =>
    unfold conserved at h ⊢
    unfold runA restartState
    simp [processAll_queue]

/-- The conservation invariant holds in every reachable state. -/
theorem conserved_run (tr : List SysAction) :
    ∀ s : AggState, conserved s → conserved (run s tr) := by
  induction tr with
  | nil => intro s h; exact h
  | cons a rest ih =>
    intro s h
    unfold run
    rw [List.foldl_cons]
    exact ih (runA s a) (conserved_runA s a h)

/-- C3: for every trace of publishes, worker steps and graceful
restarts starting from a fresh aggregator over an empty store, in every
reachable state whose queue has drained,
`received = unique_processed + duplicate_dropped`. -/
theorem conservation_after_drain (tr : List SysAction)
    (h : (run initState tr).queue = []) :
    (run initState tr).received =
      (run initState tr).unique_processed + (run initState tr).duplicate_dropped := by
  have hc : conserved (run initState tr) :=
    conserved_run tr initState (by simp [conserved, initState])
  unfold conserved at hc
  rw [h] at hc
  simpa using hc

/-- C3 witness: the conservation equality on the concrete drained trace
"publish one event, then one worker step". -/
theorem conservation_after_drain_witness :
    (run initState [.pub ⟨"t", "e1", "ts", "s", "p"⟩, .step "n"]).received =
      (run initState [.pub ⟨"t", "e1", "ts", "s", "p"⟩, .step "n"]).unique_processed +
        (run initState [.pub ⟨"t", "e1", "ts", "s", "p"⟩, .step "n"]).duplicate_dropped :=
  conservation_after_drain [.pub ⟨"t", "e1", "ts", "s", "p"⟩, .step "n"] (by decide)

/-! ### Claim C4: topic filtering and ordering -/

/-- C4: for a non-empty topic `t`, `get_processed_events (some t)` (and
the aggregator's `get_events`, its pass-through) returns exactly the
rows whose topic is `t` — a permutation of `s.filter (topic = t)`, so no
row of another topic and no missing or duplicated row — sorted by
`processed_at` descending; with no filter it returns a permutation of
all rows of all topics in the same descending order. -/
theorem get_events_topic_filter (s : Store) (t : String) (ht : t ≠ "") :
    (get_processed_events s (some t)).Perm (s.filter fun r => r.topic == t) ∧
    List.Sorted procDesc (get_processed_events s (some t)) ∧
    (∀ r ∈ get_processed_events s (some t), r.topic = t) ∧
    (get_processed_events s none).Perm s ∧
    List.Sorted procDesc (get_processed_events s none) ∧
    get_events s (some t) = get_processed_events s (some t) ∧
    get_events s none = get_processed_events s none := by
  have hsome : get_processed_events s (some t) =
      List.insertionSort procDesc (s.filter fun r => r.topic == t) := by
    simp [get_processed_events, ht]
  refine ⟨?_, ?_, ?_, ?_, ?_, rfl, rfl⟩
  · rw [hsome]; exact List.perm_insertionSort procDesc _
  · rw [hsome]; exact List.sorted_insertionSort procDesc _
  · intro r hr
    rw [hsome] at hr
    have hmem : r ∈ s.filter fun r => r.topic == t :=
      (List.perm_insertionSort procDesc _).mem_iff.mp hr
    have := List.of_mem_filter hmem
    simpa using this
  · exact List.perm_insertionSort procDesc s
  · exact List.sorted_insertionSort procDesc s

/-- C4 witness: the topic-filtering theorem instantiated at topic `"a"`
over a two-topic store. -/
theorem get_events_topic_filter_witness :
    ((get_processed_events [⟨"a", "1", "t", "p1"⟩, ⟨"b", "2", "t", "p3"⟩] (some "a")).Perm
      ([⟨"a", "1", "t", "p1"⟩, ⟨"b", "2", "t", "p3"⟩].filter fun r => r.topic == "a")) ∧
    List.Sorted procDesc
      (get_processed_events [⟨"a", "1", "t", "p1"⟩, ⟨"b", "2", "t", "p3"⟩] (some "a")) ∧
    (∀ r ∈ get_processed_events [⟨"a", "1", "t", "p1"⟩, ⟨"b", "2", "t", "p3"⟩] (some "a"),
      r.topic = "a") ∧
    ((get_processed_events [⟨"a", "1", "t", "p1"⟩, ⟨"b", "2", "t", "p3"⟩] none).Perm
      [⟨"a", "1", "t", "p1"⟩, ⟨"b", "2", "t", "p3"⟩]) ∧
    List.Sorted procDesc
      (get_processed_events [⟨"a", "1", "t", "p1"⟩, ⟨"b", "2", "t", "p3"⟩] none) ∧
    get_events [⟨"a", "1", "t", "p1"⟩, ⟨"b", "2", "t", "p3"⟩] (some "a") =
      get_processed_events [⟨"a", "1", "t", "p1"⟩, ⟨"b", "2", "t", "p3"⟩] (some "a") ∧
    get_events [⟨"a", "1", "t", "p1"⟩, ⟨"b", "2", "t", "p3"⟩] none =
      get_processed_events [⟨"a", "1", "t", "p1"⟩, ⟨"b", "2", "t", "p3"⟩] none :=
  get_events_topic_filter [⟨"a", "1", "t", "p1"⟩, ⟨"b", "2", "t", "p3"⟩] "a" (by decide)

/-! ### Claim C6: error propagation and worker isolation -/



/-- C6: `mark_processed` propagates every persistence error other than
the uniqueness violation to its caller, returns the boolean `false`
(raising nothing) on the uniqueness violation itself, and behaves as the
fault-free model otherwise; the worker loop catches the raised error,
leaves the state as it was before the faulty event, and continues with
all remaining events — one event's failure never terminates the loop. -/
theorem store_failure_isolation (s : Store) (topic event_id ts now : String)
    (st : AggState) (faults : Event → Bool) (wnow : String)
    (es₁ es₂ : List Event) (e : Event) (hf : faults e = true) :
    markProcessedExc s topic event_id ts now true =
      .error .persistenceFailure ∧
    (hasKey s topic event_id = true →
      markProcessedExc s topic event_id ts now false = .ok (false, s)) ∧
    markProcessedExc s topic event_id ts now false =
      .ok (mark_processed s topic event_id ts now) ∧
    consumeLoop faults wnow (es₁ ++ e :: es₂) st =
      consumeLoop faults wnow es₂ (consumeLoop faults wnow es₁ st) := by
  refine ⟨rfl, ?_, ?_, ?_⟩
  · intro h
    simp [markProcessedExc, insertRow, h]
  · cases h : hasKey s topic event_id <;>
      simp [markProcessedExc, insertRow, mark_processed, h]
  · induction es₁ generalizing st with
    | nil =>
      simp [List.nil_append, consumeLoop, processEventExc, markProcessedExc,
        insertRow, hf]
    | cons e1 rest ih =>
      simp only [List.cons_append, consumeLoop]
      cases processEventExc st e1 wnow (faults e1) with
      | ok s2 => exact ih s2
      | error err => exact ih st

/-- C6 witness: the isolation theorem instantiated with a concrete store,
a faulting event between two healthy ones, and the fault schedule that
fails exactly on event id `"bad"`. -/
theorem store_failure_isolation_witness :
    markProcessedExc [] "t" "e" "ts" "n" true = .error .persistenceFailure ∧
    (hasKey [] "t" "e" = true →
      markProcessedExc [] "t" "e" "ts" "n" false = .ok (false, [])) ∧
    markProcessedExc [] "t" "e" "ts" "n" false =
      .ok (mark_processed [] "t" "e" "ts" "n") ∧
    consumeLoop (fun ev => ev.event_id == "bad") "n"
        ([⟨"t", "e1", "ts", "s", "p"⟩] ++ ⟨"t", "bad", "ts", "s", "p"⟩ ::
          [⟨"t", "e2", "ts", "s", "p"⟩]) initState =
      consumeLoop (fun ev => ev.event_id == "bad") "n" [⟨"t", "e2", "ts", "s", "p"⟩]
        (consumeLoop (fun ev => ev.event_id == "bad") "n"
          [⟨"t", "e1", "ts", "s", "p"⟩] initState) :=
  store_failure_isolation [] "t" "e" "ts" "n" initState
    (fun ev => ev.event_id == "bad") "n"
    [⟨"t", "e1", "ts", "s", "p"⟩] [⟨"t", "e2", "ts", "s", "p"⟩]
    ⟨"t", "bad", "ts", "s", "p"⟩ (by decide)

/-! ### Claim C1: exactly-once idempotency across drains and restarts -/

/-- The row inserted for an event carries the event's key. -/
theorem row_key (e : Event) (ts now : String) :
    (ProcessedRecord.mk e.topic e.event_id ts now).key = e.key := rfl

/-- Membership predicates of `hasKey` and `countKey` agree on each row. -/
theorem key_pred (r : ProcessedRecord) (t i : String) :
    (r.key == (t, i)) = (r.topic == t && r.event_id == i) := by
  rw [Bool.eq_iff_iff]
  simp [ProcessedRecord.key, Prod.ext_iff]

/-- The SQL existence check sees the key iff the model count is positive. -/
theorem hasKey_iff_countKey (s : Store) (t i : String) :
    hasKey s t i = true ↔ 0 < countKey s (t, i) := by
  unfold hasKey countKey
  rw [← List.countP_eq_length_filter, List.countP_pos_iff, List.any_eq_true]
  constructor
  · rintro ⟨r, hr, hp⟩
    exact ⟨r, hr, by rw [key_pred]; exact hp⟩
  · rintro ⟨r, hr, hp⟩
    exact ⟨r, hr, by rw [← key_pred]; exact hp⟩

/-- Counting rows with a key distributes over table append. -/
theorem countKey_append (s1 s2 : Store) (k : String × String) :
    countKey (s1 ++ s2) k = countKey s1 k + countKey s2 k := by
  unfold countKey
  rw [List.filter_append, List.length_append]

/-- Count of a key in a one-row table. -/
theorem countKey_singleton (row : ProcessedRecord) (k : String × String) :
    countKey [row] k = if row.key = k then 1 else 0 := by
  by_cases h : row.key = k <;> simp [countKey, h]

/-- Counting marks distributes over append. -/
theorem marksCount_append (m1 m2 : List (String × String)) (k : String × String) :
    marksCount (m1 ++ m2) k = marksCount m1 k + marksCount m2 k := by
  unfold marksCount
  rw [List.filter_append, List.length_append]

/-- Count of a key in a one-entry mark log. -/
theorem marksCount_singleton (k2 k : String × String) :
    marksCount [k2] k = if k2 = k then 1 else 0 := by
  by_cases h : k2 = k <;> simp [marksCount, h]

/-- Count of a key at the head of the queue. -/
theorem queueCount_cons (e : Event) (q : List Event) (k : String × String) :
    queueCount (e :: q) k = (if e.key = k then 1 else 0) + queueCount q k := by
  by_cases h : e.key = k <;> simp [queueCount, List.filter_cons, h, Nat.add_comm]

/-- Count of a key in the queue after an enqueue. -/
theorem queueCount_append_one (q : List Event) (e : Event) (k : String × String) :
    queueCount (q ++ [e]) k = queueCount q k + (if e.key = k then 1 else 0) := by
  by_cases h : e.key = k <;>
    simp [queueCount, List.filter_append, List.filter_cons, h]

/-- The store after `processEvent`: unchanged on a duplicate, one row
appended on a first-time key. -/
theorem processEvent_store (s : AggState) (e : Event) (now : String) :
    (processEvent s e now).store =
      if hasKey s.store e.topic e.event_id then s.store
      else s.store ++ [⟨e.topic, e.event_id, e.timestamp, now⟩] := by
  unfold processEvent mark_processed
  cases h : hasKey s.store e.topic e.event_id <;> simp [h]

/-- The mark log after `processEvent`: extended by the event's key
exactly when the insert succeeded. -/
theorem processEvent_marks (s : AggState) (e : Event) (now : String) :
    (processEvent s e now).marks =
      if hasKey s.store e.topic e.event_id then s.marks
      else s.marks ++ [e.key] := by
  unfold processEvent mark_processed
  cases h : hasKey s.store e.topic e.event_id <;> simp [h]

/-- Projection fact: `processEvent` leaves the queue field untouched. -/
theorem processEvent_queue (s : AggState) (e : Event) (now : String) :
    (processEvent s e now).queue = s.queue :=
  (processEvent_counters s e now).1

/-- Processing never removes rows: the count of any key is monotone. -/
theorem processEvent_countKey_mono (s : AggState) (e : Event) (now : String)
    (k : String × String) :
    countKey s.store k ≤ countKey (processEvent s e now).store k := by
  rw [processEvent_store]
  cases h : hasKey s.store e.topic e.event_id <;> simp [countKey_append]

/-- The primary key constraint keeps the per-key row count at most one. -/
theorem processEvent_countKey_le (s : AggState) (e : Event) (now : String)
    (k : String × String) (h1 : countKey s.store k ≤ 1) :
    countKey (processEvent s e now).store k ≤ 1 := by
  rw [processEvent_store]
  cases h : hasKey s.store e.topic e.event_id with
  | true => simpa using h1
  | false =>
    simp only [Bool.false_eq_true, if_false]
    rw [countKey_append, countKey_singleton, row_key]
    by_cases hk : e.key = k
    · have h0 : countKey s.store (e.topic, e.event_id) = 0 := by
        by_contra hne
        exact absurd ((hasKey_iff_countKey s.store e.topic e.event_id).mpr
          (Nat.pos_of_ne_zero hne)) (by simp [h])
      have : countKey s.store k = 0 := by
        have he : e.key = (e.topic, e.event_id) := rfl
        rw [← hk, he]
        exact h0
      simp [this, hk]
    · simp [hk, h1]

/-- The per-key row count equals the per-key successful-mark count, and
`processEvent` keeps it so. -/
theorem processEvent_cnt_marks (s : AggState) (e : Event) (now : String)
    (k : String × String)
    (h : countKey s.store k = marksCount s.marks k) :
    countKey (processEvent s e now).store k =
      marksCount (processEvent s e now).marks k := by
  rw [processEvent_store, processEvent_marks]
  cases hk : hasKey s.store e.topic e.event_id with
  | true => simpa using h
  | false =>
    simp only [Bool.false_eq_true, if_false]
    rw [countKey_append, countKey_singleton, row_key, marksCount_append,
      marksCount_singleton, h]

/-- Processing an event with key `k` guarantees a row with key `k`. -/
theorem processEvent_countKey_hit (s : AggState) (e : Event) (now : String)
    (k : String × String) (hk : e.key = k) :
    1 ≤ countKey (processEvent s e now).store k := by
  rw [processEvent_store]
  cases h : hasKey s.store e.topic e.event_id with
  | true =>
    have := (hasKey_iff_countKey s.store e.topic e.event_id).mp h
    have he : e.key = (e.topic, e.event_id) := rfl
    simpa [← hk, he] using this
  | false =>
    simp only [Bool.false_eq_true, if_false]
    rw [countKey_append, countKey_singleton, row_key]
    simp [hk]

/-- Processing an event with a different key leaves the count of `k`
unchanged. -/
theorem processEvent_countKey_miss (s : AggState) (e : Event) (now : String)
    (k : String × String) (hk : e.key ≠ k) :
    countKey (processEvent s e now).store k = countKey s.store k := by
  rw [processEvent_store]
  cases h : hasKey s.store e.topic e.event_id with
  | true => simp
  | false =>
    simp only [Bool.false_eq_true, if_false]
    rw [countKey_append, countKey_singleton, row_key]
    simp [hk]

/-- Draining preserves the at-most-one-row bound for every key. -/
theorem processAll_countKey_le (es : List Event) :
    ∀ (s : AggState) (now : String) (k : String × String),
      countKey s.store k ≤ 1 →
      countKey (processAll s es now).store k ≤ 1 := by
  induction es with
  | nil => intro s now k h; exact h
  | cons e rest ih =>
    intro s now k h
    unfold processAll
    rw [List.foldl_cons]
    exact ih (processEvent s e now) now k (processEvent_countKey_le s e now k h)

/-- Draining preserves the row-count/mark-count equality for every key. -/
theorem processAll_cnt_marks (es : List Event) :
    ∀ (s : AggState) (now : String) (k : String × String),
      countKey s.store k = marksCount s.marks k →
      countKey (processAll s es now).store k =
        marksCount (processAll s es now).marks k := by
  induction es with
  | nil => intro s now k h; exact h
  | cons e rest ih =>
    intro s now k h
    unfold processAll
    rw [List.foldl_cons]
    exact ih (processEvent s e now) now k (processEvent_cnt_marks s e now k h)

/-- Draining never removes rows. -/
theorem processAll_countKey_mono (es : List Event) :
    ∀ (s : AggState) (now : String) (k : String × String),
      countKey s.store k ≤ countKey (processAll s es now).store k := by
  induction es with
  | nil => intro s now k; exact Nat.le_refl _
  | cons e rest ih =>
    intro s now k
    unfold processAll
    rw [List.foldl_cons]
    exact Nat.le_trans (processEvent_countKey_mono s e now k)
      (ih (processEvent s e now) now k)

/-- If key `k` is present in the store or among the events to drain,
then after draining the store holds a row with key `k`. -/
theorem processAll_countKey_ge (es : List Event) :
    ∀ (s : AggState) (now : String) (k : String × String),
      1 ≤ countKey s.store k + queueCount es k →
      1 ≤ countKey (processAll s es now).store k := by
  induction es with
  | nil =>
    intro s now k h
    simpa [queueCount] using h
  | cons e rest ih =>
    intro s now k h
    unfold processAll
    rw [List.foldl_cons]
    by_cases hk : e.key = k
    · exact Nat.le_trans (processEvent_countKey_hit s e now k hk)
        (processAll_countKey_mono rest (processEvent s e now) now k)
    · apply ih (processEvent s e now) now k
      rw [processEvent_countKey_miss s e now k hk]
      rw [queueCount_cons] at h
      simpa [hk] using h

/-- Publishing an event appends to the publish count of its key. -/
theorem pubCount_append_pub (tr : List SysAction) (e : Event) (k : String × String) :
    pubCount (tr ++ [.pub e]) k = pubCount tr k + (if e.key = k then 1 else 0) := by
  unfold pubCount
  rw [List.filter_append, List.length_append]
  by_cases hk : e.key = k <;> simp [hk]

/-- A worker step does not change the publish count of any key. -/
theorem pubCount_append_step (tr : List SysAction) (now : String) (k : String × String) :
    pubCount (tr ++ [.step now]) k = pubCount tr k := by
  unfold pubCount
  rw [List.filter_append, List.length_append]
  simp

/-- A restart does not change the publish count of any key. -/
theorem pubCount_append_restart (tr : List SysAction) (now : String) (k : String × String) :
    pubCount (tr ++ [.restart now]) k = pubCount tr k := by
  unfold pubCount
  rw [List.filter_append, List.length_append]
  simp

/-- Behaviour of `pubEvent` on a fast-path duplicate: only counters change. -/
theorem pubEvent_dup {s : AggState} {e : Event}
    (h : is_duplicate s.store e.topic e.event_id = true) :
    pubEvent s e = { s with received := s.received + 1,
                            duplicate_dropped := s.duplicate_dropped + 1 } := by
  simp [pubEvent, h]

/-- Behaviour of `pubEvent` on an accepted event: the event is enqueued. -/
theorem pubEvent_new {s : AggState} {e : Event}
    (h : is_duplicate s.store e.topic e.event_id = false) :
    pubEvent s e = { s with received := s.received + 1,
                            queue := s.queue ++ [e] } := by
  simp [pubEvent, h]

/-- Reachability invariant of the whole system, for every key `k`: the
store never holds two rows with key `k`; the per-key row count always
equals the number of successful `mark_processed` calls for `k` (the
per-key `unique_processed` increments accumulated across restarts); and
once `k` has been published at least once, a row with key `k` exists or
an event with key `k` is still queued. -/
theorem trace_invariant (k : String × String) (tr : List SysAction) :
    countKey (run initState tr).store k ≤ 1 ∧
    countKey (run initState tr).store k = marksCount (run initState tr).marks k ∧
    (1 ≤ pubCount tr k →
      1 ≤ countKey (run initState tr).store k +
        queueCount (run initState tr).queue k) := by
  induction tr using List.reverseRecOn with
  | nil => simp [run, initState, countKey, marksCount, queueCount, pubCount]
  | append_singleton tr a ih =>
    obtain ⟨ih1, ih2, ih3⟩ := ih
    have hrun : run initState (tr ++ [a]) = runA (run initState tr) a := by
      simp [run, List.foldl_append]
    rw [hrun]
    cases a with
    | pub e =>
      show _ ∧ _ ∧ (1 ≤ pubCount (tr ++ [.pub e]) k → _)
      rw [pubCount_append_pub]
      cases hd : is_duplicate (run initState tr).store e.topic e.event_id with
      | true =>
        rw [show runA (run initState tr) (.pub e) = pubEvent (run initState tr) e
              from rfl, pubEvent_dup hd]
        refine ⟨ih1, ih2, ?_⟩
        intro _
        by_cases hk : e.key = k
        · have hpos := (hasKey_iff_countKey _ e.topic e.event_id).mp hd
          have he : e.key = (e.topic, e.event_id) := rfl
          have : 1 ≤ countKey (run initState tr).store k := by
            rw [← hk, he]
            exact hpos
          exact Nat.le_trans this (Nat.le_add_right _ _)
        · simp only [hk, if_false, Nat.add_zero] at *
          omega
      | false =>
        rw [show runA (run initState tr) (.pub e) = pubEvent (run initState tr) e
              from rfl, pubEvent_new hd]
        refine ⟨ih1, ih2, ?_⟩
        intro _
        simp only
        rw [queueCount_append_one]
        by_cases hk : e.key = k
        · simp [hk]
          omega
        · simp only [hk, if_false, Nat.add_zero] at *
          omega
    | step now =>
      show _ ∧ _ ∧ (1 ≤ pubCount (tr ++ [.step now]) k → _)
      rw [pubCount_append_step]
      rw [show runA (run initState tr) (.step now) = stepState (run initState tr) now
            from rfl]
      unfold stepState
      cases hq : (run initState tr).queue with
      | nil =>
        refine ⟨ih1, ih2, ?_⟩
        intro hp
        exact ih3 hp
      | cons e rest =>
        have hstore : ({ run initState tr with queue := rest }).store =
            (run initState tr).store := rfl
        have hmarks : ({ run initState tr with queue := rest }).marks =
            (run initState tr).marks := rfl
        refine ⟨?_, ?_, ?_⟩
        · exact processEvent_countKey_le _ e now k (by rw [hstore]; exact ih1)
        · exact processEvent_cnt_marks _ e now k (by rw [hstore, hmarks]; exact ih2)
        · intro hp
          have h3 := ih3 hp
          rw [hq, queueCount_cons] at h3
          rw [processEvent_queue]
          by_cases hk : e.key = k
          · exact Nat.le_trans (processEvent_countKey_hit _ e now k hk)
              (Nat.le_add_right _ _)
          · rw [processEvent_countKey_miss _ e now k hk, hstore]
            simpa [hk] using h3
    | restart now =>
      show _ ∧ _ ∧ (1 ≤ pubCount (tr ++ [.restart now]) k → _)
      rw [pubCount_append_restart]
      rw [show runA (run initState tr) (.restart now) =
            restartState (run initState tr) now from rfl]
      unfold restartState
      have hstore : ({ run initState tr with queue := ([] : List Event) }).store =
          (run initState tr).store := rfl
      have hmarks : ({ run initState tr with queue := ([] : List Event) }).marks =
          (run initState tr).marks := rfl
      refine ⟨?_, ?_, ?_⟩
      · simp only
        exact processAll_countKey_le _ _ now k (by rw [hstore]; exact ih1)
      · simp only
        exact processAll_cnt_marks _ _ now k (by rw [hstore, hmarks]; exact ih2)
      · intro hp
        have h3 := ih3 hp
        simp only
        rw [processAll_queue]
        have : 1 ≤ countKey (processAll
            { run initState tr with queue := ([] : List Event) }
            (run initState tr).queue now).store k := by
          apply processAll_countKey_ge _ _ now k
          rw [hstore]
          exact h3
        simpa [queueCount] using this

/-- C1: for any interleaving of publishes, worker steps and graceful
restarts against one (possibly reopened) store, if the key `k` was
published `N ≥ 1` times and the queue has drained, the store holds
exactly one `ProcessedRecord` with key `k` and `unique_processed` was
incremented exactly once for `k` across all those publishes (the ghost
`marks` log, which survives restarts, records exactly one successful
`mark_processed` for `k`). -/
theorem idempotency_exactly_once (tr : List SysAction) (k : String × String)
    (N : Nat) (hN : pubCount tr k = N) (hN1 : 1 ≤ N)
    (hdrain : (run initState tr).queue = []) :
    countKey (run initState tr).store k = 1 ∧
    marksCount (run initState tr).marks k = 1 := by
  obtain ⟨h1, h2, h3⟩ := trace_invariant k tr
  have hq : queueCount (run initState tr).queue k = 0 := by
    rw [hdrain]; rfl
  have hp : 1 ≤ pubCount tr k := by omega
  have hge := h3 hp
  rw [hq] at hge
  omega

/-- C1 witness: the key `("t", "e1")` published three times — twice
before a restart (one publish processed as new, one as a late
duplicate), once after the restart (rejected by the reopened store's
fast path) — ends with exactly one row and exactly one successful mark. -/
theorem idempotency_exactly_once_witness :
    countKey (run initState
      [.pub ⟨"t", "e1", "ts", "s", "p"⟩, .pub ⟨"t", "e1", "ts2", "s", "p"⟩,
       .step "n1", .step "n2", .restart "n3",
       .pub ⟨"t", "e1", "ts3", "s", "p"⟩]).store ("t", "e1") = 1 ∧
    marksCount (run initState
      [.pub ⟨"t", "e1", "ts", "s", "p"⟩, .pub ⟨"t", "e1", "ts2", "s", "p"⟩,
       .step "n1", .step "n2", .restart "n3",
       .pub ⟨"t", "e1", "ts3", "s", "p"⟩]).marks ("t", "e1") = 1 :=
  idempotency_exactly_once
    [.pub ⟨"t", "e1", "ts", "s", "p"⟩, .pub ⟨"t", "e1", "ts2", "s", "p"⟩,
     .step "n1", .step "n2", .restart "n3",
     .pub ⟨"t", "e1", "ts3", "s", "p"⟩]
    ("t", "e1") 3 (by decide) (by decide) (by decide)
